import Mathlib

/-
Verification of the autofunc repository: a shallow embedding of its core
components (text normalizer, method finder, tool-spec builder, OpenAPI
converter) together with theorems settling the frozen claims.

Conventions of the embedding:
  * Python strings are Lean `String` (lists of characters); the regex
    character classes of `re` are modelled over ASCII, which covers every
    character the repository's own processing introduces.
  * Python dictionaries are association lists `List (String × _)` in
    insertion order; assignment to an existing key replaces its value in
    place, assignment to a fresh key appends (`setKey`).
  * JSON-shaped dynamic values are the inductive `JVal`.
  * Code that can raise an exception is embedded in `Except PyErr _`,
    with one constructor per exception class the modelled code can raise.
  * Filesystem traversal, `importlib` resolution and module import are
    I/O collaborators: the functions that use them take the resolved
    artifact (list of source files, parsed module body) as an argument.
-/

namespace AutoFunc

/-- JSON-like dynamic values (the shape of data the Python code passes around). -/
inductive JVal where
  | null
  | str (s : String)
  | num (n : Int)
  | boolean (b : Bool)
  | arr (elems : List JVal)
  | obj (fields : List (String × JVal))

/-- A Python dict modelled as an association list in insertion order. -/
abbrev JObj := List (String × JVal)

/-- Exception classes raised by the modelled code paths. -/
inductive PyErr where
  | typeError
  | keyError
  | attributeError
  | stopIteration
  | valueError
  | indexError

/-- `d[k]` lookup returning the first (unique, for genuine dicts) binding. -/
def getKey? {α : Type} : List (String × α) → String → Option α
  | [], _ => none
  | kv :: rest, k => if kv.1 == k then some kv.2 else getKey? rest k

/-- `d[k] = v`: replace the value of an existing key in place, else append. -/
def setKey {α : Type} : List (String × α) → String → α → List (String × α)
  | [], k, v => [(k, v)]
  | kv :: rest, k, v => if kv.1 == k then (k, v) :: rest else kv :: setKey rest k v

/-- ASCII decimal digit, the `\d` class used by the `^(?=\d)` guard. -/
def pyIsDigit (c : Char) : Bool := decide ('0' ≤ c ∧ c ≤ '9')

/-- ASCII letter, as in the classes `\w` and `[A-Za-z_]`. -/
def pyIsAlpha (c : Char) : Bool :=
  decide ('A' ≤ c ∧ c ≤ 'Z') || decide ('a' ≤ c ∧ c ≤ 'z')

/-- Word character (`\w`): letter, digit or underscore. -/
def isWordChar (c : Char) : Bool := pyIsAlpha c || pyIsDigit c || c == '_'

/-- The character class `[A-Za-z_]` of the start-of-string check. -/
def startsOkChar (c : Char) : Bool := pyIsAlpha c || c == '_'

/-- The `\W` half of the substitution: every non-word character becomes `_`. -/
def replaceNonWord (cs : List Char) : List Char :=
  cs.map (fun c => if isWordChar c then c else '_')

/-- `re.sub` with pattern `\W|^(?=\d)` and replacement `_`: replace
non-word characters with `_` everywhere, and additionally insert a
leading `_` when the string starts with a digit (the zero-width
lookahead alternative matches the empty string there). -/
def subWordGuard (cs : List Char) : List Char :=
  match cs with
  | [] => []
  | c :: _ => if pyIsDigit c then '_' :: replaceNonWord cs else replaceNonWord cs

/-- `re.match` of `^[A-Za-z_]` succeeds. -/
def startsOk (cs : List Char) : Bool :=
  match cs with
  | [] => false
  | c :: _ => startsOkChar c

/-- Body of `normalize_string` over character lists. -/
def normalizeChars (cs : List Char) : List Char :=
  if startsOk (subWordGuard cs) then subWordGuard cs else '_' :: subWordGuard cs

/-- `util.text.normalize_string`. -/
def normalize_string (s : String) : String := ⟨normalizeChars s.data⟩

/-- A default-value expression of a function definition, as
`ast.literal_eval` sees it: either a literal expression (numbers,
strings, booleans, None, literal containers), which evaluates to its
value, or any other expression, on which `literal_eval` raises
ValueError.  The evaluation of literal trees beyond this success/value
distinction is not needed by any claim. -/
inductive PyExpr where
  | lit (v : JVal)
  | nonlit

/-- One `ast.arg` node: its name and, when an annotation is present,
the structural string `ast.dump` produces for it. -/
structure PyArg where
  arg : String
  annotation : Option String

/-- The `ast.arguments` node of a function definition: positional
arguments with their trailing defaults, keyword-only arguments with
their (None-padded) default list, and the variadic parameters. -/
structure PyArguments where
  args : List PyArg
  defaults : List PyExpr
  kwonlyargs : List PyArg
  kw_defaults : List (Option PyExpr)
  vararg : Option PyArg
  kwarg : Option PyArg

/-- A function definition with no parameters. -/
def emptyArgs : PyArguments := ⟨[], [], [], [], none, none⟩

/-- A direct body item of a class definition. -/
inductive ClassItem where
  | funcItem (name : String) (doc : Option String) (args : PyArguments)
  | otherItem

/-- A statement node of a parsed source file.  The model covers the
constructs the finder inspects: module-level statements, class
definitions and their direct-body items.  Deeper nesting (classes inside
classes or inside function bodies) is not modelled; the finder only
reads class definitions and their direct children. -/
inductive PyNode where
  | funcDef (name : String) (doc : Option String) (args : PyArguments)
  | classDef (name : String) (body : List ClassItem)
  | other

def itemToNode : ClassItem → PyNode
  | .funcItem n d a => .funcDef n d a
  | .otherItem => .other

/-- `ast.walk`: breadth-first traversal.  Over this two-level model it
yields every top-level node followed by every class's direct body items,
which is exactly the FIFO order of `ast.walk`. -/
def walk (ns : List PyNode) : List PyNode :=
  ns ++ ns.flatMap (fun n =>
    match n with
    | .classDef _ body => body.map itemToNode
    | _ => [])

/-- `ast.literal_eval`: the value of a literal expression, ValueError on
anything else. -/
def literal_eval : PyExpr → Except PyErr JVal
  | .lit v => .ok v
  | .nonlit => .error .valueError

/-- One value of the `args_info` map: the evaluated default (`null` for
"no default") and the annotation dump. -/
structure ArgDetail where
  default : JVal
  annotation : Option String

/-- The positional-argument loop of `parse_function_arguments`: an
argument whose position reaches the trailing-defaults window pairs with
its default, which is passed through `literal_eval` (ValueError on a
non-literal default); `args.index(arg)` is the positional index, here
carried by the counter. -/
def posLoop (total : Nat) (defaults : List PyExpr) :
    Nat → List PyArg → List (String × ArgDetail) →
    Except PyErr (List (String × ArgDetail))
  | _, [], acc => .ok acc
  | i, arg :: rest, acc =>
    if !defaults.isEmpty && decide (total - defaults.length ≤ i) then
      match defaults.get? (i - (total - defaults.length)) with
      | none => .error .indexError
      | some e =>
        match literal_eval e with
        | .error er => .error er
        | .ok v => posLoop total defaults (i + 1) rest (setKey acc arg.arg ⟨v, arg.annotation⟩)
    else posLoop total defaults (i + 1) rest (setKey acc arg.arg ⟨JVal.null, arg.annotation⟩)

/-- The keyword-only loop of `parse_function_arguments`: when the
(None-padded) `kw_defaults` list is non-empty, the entry at the
argument's index is evaluated with `literal_eval` unless it is None. -/
def kwLoop (kw_defaults : List (Option PyExpr)) :
    Nat → List PyArg → List (String × ArgDetail) →
    Except PyErr (List (String × ArgDetail))
  | _, [], acc => .ok acc
  | i, kwarg :: rest, acc =>
    if kw_defaults.isEmpty then
      kwLoop kw_defaults (i + 1) rest (setKey acc kwarg.arg ⟨JVal.null, kwarg.annotation⟩)
    else
      match kw_defaults.get? i with
      | none => .error .indexError
      | some none => kwLoop kw_defaults (i + 1) rest (setKey acc kwarg.arg ⟨JVal.null, kwarg.annotation⟩)
      | some (some e) =>
        match literal_eval e with
        | .error er => .error er
        | .ok v => kwLoop kw_defaults (i + 1) rest (setKey acc kwarg.arg ⟨v, kwarg.annotation⟩)

/-- `parse_function_arguments`: positional arguments, keyword-only
arguments, then the `*args` and `**kwargs` entries (always with a None
default). -/
def parse_function_arguments (a : PyArguments) :
    Except PyErr (List (String × ArgDetail)) :=
  match posLoop a.args.length a.defaults 0 a.args [] with
  | .error e => .error e
  | .ok acc1 =>
    match kwLoop a.kw_defaults 0 a.kwonlyargs acc1 with
    | .error e => .error e
    | .ok acc2 =>
      let acc3 := match a.vararg with
        | some va => setKey acc2 va.arg ⟨JVal.null, va.annotation⟩
        | none => acc2
      let acc4 := match a.kwarg with
        | some kw => setKey acc3 kw.arg ⟨JVal.null, kw.annotation⟩
        | none => acc3
      .ok acc4

/-- Whether the first list starts with the second one, by characters. -/
def charsStartWith : List Char → List Char → Bool
  | _, [] => true
  | [], _ :: _ => false
  | a :: as, b :: bs => a == b && charsStartWith as bs

/-- Python `s.endswith(suffix)`. -/
def strEndsWith (s suffix : String) : Bool :=
  charsStartWith s.data.reverse suffix.data.reverse

/-- Python `sub in s`: substring containment. -/
def charsContain : List Char → List Char → Bool
  | [], pat => pat.isEmpty
  | c :: rest, pat => charsStartWith (c :: rest) pat || charsContain rest pat

def strContains (s pat : String) : Bool := charsContain s.data pat.data

/-- The `FoundMethod` dataclass.  The package scanner stores `None` in
`parameters` (its `parse_function_arguments` call is commented out);
`find_method_direct` stores the helper's result. -/
structure FoundMethod where
  method_name : String
  func_def : PyNode
  package_name : String
  class_name : Option String
  doc_string : Option String
  parameters : Option (List (String × ArgDetail))

/-- `len(methods) >= expected_num` with Python int semantics. -/
def lenGe (n : Nat) (k : Int) : Bool := decide ((n : Int) ≥ k)

/-- `method_name not in [item.name, "*"]` negated: keep the item when
the requested name matches exactly or is the wildcard. -/
def matchesMethodName (mn fname : String) : Bool := mn == fname || mn == "*"

/-- `if class_name and class_name != node.name: continue` — the filter
only fires when `class_name` is truthy (not None, not empty). -/
def classFilterSkips (cn : Option String) (cname : String) : Bool :=
  match cn with
  | some c => !(c == "") && !(c == cname)
  | none => false

/-- Inner loop of `_find_methods_in_file` over one class body.  The Bool
result records an early `return` (match-count limit reached). -/
def scanBody (pkg mn : String) (cn : Option String) (k : Int) (cname : String) :
    List ClassItem → List FoundMethod → List FoundMethod × Bool
  | [], ms => (ms, false)
  | item :: rest, ms =>
    if classFilterSkips cn cname then scanBody pkg mn cn k cname rest ms
    else
      match item with
      | .funcItem fname doc args =>
        if matchesMethodName mn fname then
          let ms' := ms ++ [⟨fname, .funcDef fname doc args, pkg, some cname, doc, none⟩]
          if lenGe ms'.length k && !(k == -1) then (ms', true)
          else scanBody pkg mn cn k cname rest ms'
        else scanBody pkg mn cn k cname rest ms
      | .otherItem => scanBody pkg mn cn k cname rest ms

/-- Outer loop of `_find_methods_in_file` over `ast.walk` output,
keeping only class definitions. -/
def scanNodes (pkg mn : String) (cn : Option String) (k : Int) :
    List PyNode → List FoundMethod → List FoundMethod
  | [], ms => ms
  | n :: rest, ms =>
    match n with
    | .classDef cname body =>
      match scanBody pkg mn cn k cname body ms with
      | (ms', true) => ms'
      | (ms', false) => scanNodes pkg mn cn k rest ms'
    | _ => scanNodes pkg mn cn k rest ms

/-- Result of reading and parsing one source file.  `malformed` covers
both `SyntaxError` and `UnicodeDecodeError` from `ast.parse(f.read())`. -/
inductive ParseResult where
  | malformed
  | parsed (nodes : List PyNode)

/-- A file met during the package walk: its name and what parsing it gives. -/
structure SrcFile where
  fname : String
  content : ParseResult

/-- `_find_methods_in_file`.  On a parse failure the handler logs the
error and executes a bare `return`, which yields `None` — modelled as
`none`; a successful scan returns the collected list. -/
def find_methods_in_file (f : SrcFile) (pkg mn : String) (cn : Option String)
    (k : Int) : Option (List FoundMethod) :=
  match f.content with
  | .malformed => none
  | .parsed nodes => some (scanNodes pkg mn cn k (walk nodes) [])

/-- Loop of `_find_methods_in_package` over the files of the package
tree (`os.walk` order is external; the list is that traversal order).
`methods += _find_methods_in_file(...)` raises `TypeError` when the file
scan returned `None` (a parse failure), because `None` is not iterable. -/
def pkgScan : List SrcFile → String → String → Option String → Int →
    List FoundMethod → Except PyErr (List FoundMethod)
  | [], _, _, _, _, ms => .ok ms
  | f :: rest, pkg, mn, cn, k, ms =>
    if strEndsWith f.fname ".py" then
      match find_methods_in_file f pkg mn cn k with
      | none => .error .typeError
      | some res =>
        let ms' := ms ++ res
        if lenGe ms'.length k && !(k == -1) then .ok ms'
        else pkgScan rest pkg mn cn k ms'
    else pkgScan rest pkg mn cn k ms

/-- `_find_methods_in_package`. -/
def find_methods_in_package (files : List SrcFile) (pkg mn : String)
    (cn : Option String) (k : Int) : Except PyErr (List FoundMethod) :=
  pkgScan files pkg mn cn k []

/-- One entry of the package list handed to the finder: the package name
and, when `importlib.util.find_spec` resolves it, the `.py`-candidate
files under its source root (`none` models an unresolvable package,
which is logged and skipped). -/
structure PyPackage where
  name : String
  files : Option (List SrcFile)

/-- Loop of `find_method_in_packages` over the requested packages. -/
def fmipScan : List PyPackage → String → Option String → Int →
    List FoundMethod → Except PyErr (List FoundMethod)
  | [], _, _, _, ms => .ok ms
  | p :: rest, mn, cn, k, ms =>
    match p.files with
    | none => fmipScan rest mn cn k ms
    | some fs =>
      match find_methods_in_package fs p.name mn cn k with
      | .error e => .error e
      | .ok res =>
        let ms' := ms ++ res
        if lenGe ms'.length k && !(k == -1) then .ok ms'
        else fmipScan rest mn cn k ms'

/-- `find_method_in_packages` (an empty result is additionally logged,
which does not change the returned value). -/
def find_method_in_packages (packages : List PyPackage) (mn : String)
    (cn : Option String) (k : Int) : Except PyErr (List FoundMethod) :=
  fmipScan packages mn cn k []

/-- `s.rsplit(".", 1)` followed by 2-tuple unpacking: split at the last
dot; no dot means the unpacking raises (handled at the call site). -/
def rsplitDotChars : List Char → Option (List Char × List Char)
  | [] => none
  | c :: rest =>
    match rsplitDotChars rest with
    | some lr => some (c :: lr.1, lr.2)
    | none => if c == '.' then some ([], rest) else none

def pyRsplitDot (s : String) : Option (String × String) :=
  (rsplitDotChars s.data).map (fun lr => (⟨lr.1⟩, ⟨lr.2⟩))

/-- Loop of `find_method_direct` over `ast.walk` of the module source.
Each match first builds its `FoundMethod`, whose `parameters` field
calls `parse_function_arguments` — a non-literal default value there
raises ValueError out of the whole function.  When the loop finishes
without having reached `expected_num` matches, control falls off the
end of the function: Python returns `None`, discarding the partial
`methods` list. -/
def fmdScan (full module_name mn : String) (k : Int) :
    List PyNode → List FoundMethod → Except PyErr (Option (List FoundMethod))
  | [], _ => .ok none
  | n :: rest, ms =>
    match n with
    | .funcDef fname doc args =>
      if fname == mn then
        match parse_function_arguments args with
        | .error e => .error e
        | .ok info =>
          let ms' := ms ++ [⟨full, .funcDef fname doc args, module_name, none, doc, some info⟩]
          if lenGe ms'.length k then .ok (some ms')
          else fmdScan full module_name mn k rest ms'
      else fmdScan full module_name mn k rest ms
    | _ => fmdScan full module_name mn k rest ms

/-- `find_method_direct`.  Importing the module and reading its source
are I/O collaborators; `moduleNodes` stands for the body of
`ast.parse(inspect.getsource(module))`. -/
def find_method_direct (moduleNodes : List PyNode) (method_name_full : String)
    (expected_num : Int) : Except PyErr (Option (List FoundMethod)) :=
  match pyRsplitDot method_name_full with
  | none => .error .valueError
  | some mm =>
    let module_name := if mm.1 == "requests" then "requests.api" else mm.1
    fmdScan method_name_full module_name mm.2 expected_num (walk moduleNodes) []

/-- Whether a walked node is a `FunctionDef` with the requested name. -/
def isMatchDef (mn : String) : PyNode → Bool
  | .funcDef fname _ _ => fname == mn
  | _ => false

/-- Number of matching function definitions in the walked module source. -/
def fmdMatchCount (moduleNodes : List PyNode) (mn : String) : Nat :=
  ((walk moduleNodes).filter (isMatchDef mn)).length

/-- The C1 failing input: a package whose first file fails to parse,
followed by a file that contains the requested method. -/
def c1Files : List SrcFile :=
  [⟨"bad.py", .malformed⟩,
   ⟨"good.py", .parsed [.classDef "C" [.funcItem "m" none emptyArgs]]⟩]

/-- The C2 failing input: matches split 1 + 2 across two files, with
expected_num = 2. -/
def c2Packages : List PyPackage :=
  [⟨"pkg", some
      [⟨"a.py", .parsed [.classDef "A" [.funcItem "m1" none emptyArgs]]⟩,
       ⟨"b.py", .parsed [.classDef "B" [.funcItem "m2" none emptyArgs,
                                        .funcItem "m3" none emptyArgs]]⟩]⟩]

/-- A module whose single matching definition has a non-literal default
value (as in `def m(x=os.sep)`); `ast.literal_eval` raises on it. -/
def c9BadModule : List PyNode :=
  [PyNode.funcDef "m" none ⟨[⟨"x", none⟩], [PyExpr.nonlit], [], [], none, none⟩]

/-- The two-field dict of `type` and `description` that both populate
paths store per parameter. -/
structure ParamObj where
  type : JVal
  description : JVal

/-- The `ToolSpec` mutable state.  Fields hold dynamic values because
the populate paths can store `None` (e.g. a docstring with no long
description) or arbitrary JSON values. -/
structure ToolSpec where
  name : JVal
  description : JVal
  param_props : List (String × ParamObj)
  param_required : JVal

/-- `ToolSpec()` with all-default arguments: `x or default` on `None`
yields the defaults. -/
def toolSpecInit : ToolSpec := ⟨JVal.str "", JVal.str "", [], JVal.arr []⟩

def jvalOfOpt : Option String → JVal
  | none => JVal.null
  | some s => JVal.str s

/-- One parameter as delivered by the docstring-parser collaborator
(arg_name, type_name, description, is_optional; a `None` `is_optional`
is falsy, like `False`). -/
structure DocParam where
  arg_name : String
  type_name : Option String
  description : Option String
  is_optional : Bool

/-- Parsed docstring as delivered by the collaborator. -/
structure Docstring where
  long_description : Option String
  params : List DocParam

/-- The param_obj dict built from a docstring parameter. -/
def docParamObj (p : DocParam) : ParamObj :=
  ⟨jvalOfOpt p.type_name, jvalOfOpt p.description⟩

/-- `not param.is_optional and "optional" not in param.description`:
the parameter joins the required list only when neither optionality
signal fires. -/
def addsRequired (p : DocParam) : Bool :=
  !p.is_optional && !(strContains (p.description.getD "") "optional")

/-- The parameter loop of `create_from_docstring`.  The `in` test on a
`None` description raises TypeError (only reached when `is_optional` is
falsy, by short-circuit); `.append` on a non-list `param_required`
raises AttributeError. -/
def docstringLoop : ToolSpec → List DocParam → Except PyErr ToolSpec
  | t, [] => .ok t
  | ⟨n, d, pp, pr⟩, p :: rest =>
    let pp1 := setKey pp p.arg_name (docParamObj p)
    if p.is_optional then docstringLoop ⟨n, d, pp1, pr⟩ rest
    else
      match p.description with
      | none => .error .typeError
      | some desc =>
        if strContains desc "optional" then docstringLoop ⟨n, d, pp1, pr⟩ rest
        else
          match pr with
          | .arr xs => docstringLoop ⟨n, d, pp1, .arr (xs ++ [.str p.arg_name])⟩ rest
          | _ => .error .attributeError

/-- `create_from_docstring`: sets the name, stores the parsed
docstring's long description (possibly `None`), then walks the declared
parameters.  `parse(docstring)` itself is the external docstring-parser
collaborator; `ds` is its result. -/
def create_from_docstring (t : ToolSpec) (name : String) (ds : Docstring) :
    Except PyErr ToolSpec :=
  docstringLoop
    ⟨JVal.str name, jvalOfOpt ds.long_description, t.param_props, t.param_required⟩
    ds.params

/-- The unwrap step of `create_from_schema_json`: when the `type` key
maps to `"function"`, continue with the value under the `function` key
(KeyError when absent; a non-dict value fails at the next attribute
access). -/
def unwrapFunctionKey (fields : JObj) : Except PyErr JObj :=
  if (match getKey? fields "type" with
      | some (.str t) => t == "function"
      | _ => false) then
    match getKey? fields "function" with
    | none => .error .keyError
    | some (.obj g) => .ok g
    | some _ => .error .attributeError
  else .ok fields

/-- The param_obj with the documented defaults for a parameter-details
dict (non-dict details fail at `.get`). -/
def paramObjD (pd : JVal) : ParamObj :=
  match pd with
  | .obj fields =>
    ⟨(getKey? fields "type").getD (JVal.str "string"),
     (getKey? fields "description").getD (JVal.str "")⟩
  | _ => ⟨JVal.null, JVal.null⟩

/-- `paramObjD` with the non-dict AttributeError made explicit. -/
def paramObjOf (pd : JVal) : Except PyErr ParamObj :=
  match pd with
  | .obj _ => .ok (paramObjD pd)
  | _ => .error .attributeError

/-- The parameter loop of `create_from_schema_json`. -/
def schemaLoop : List (String × ParamObj) → List (String × JVal) →
    Except PyErr (List (String × ParamObj))
  | acc, [] => .ok acc
  | acc, kv :: rest =>
    match paramObjOf kv.2 with
    | .error e => .error e
    | .ok po => schemaLoop (setKey acc kv.1 po) rest

/-- `params.get("properties", params)` followed by `.items()`: fall
back to the parameters map itself when no `properties` layer is
present; a non-dict result fails at `.items()`. -/
def schemaPropsOf (params : JObj) : Except PyErr (List (String × JVal)) :=
  match (getKey? params "properties").getD (JVal.obj params) with
  | .obj props => .ok props
  | _ => .error .attributeError

/-- `create_from_schema_json`.  The name/description reads happen before
the parameter loop in the source; on any raised error the whole call
fails, so they are only observable through an `.ok` result, which this
embedding assembles at the end. -/
def create_from_schema_json (t : ToolSpec) (function_spec : JVal) :
    Except PyErr ToolSpec :=
  match function_spec with
  | .obj fields0 =>
    match unwrapFunctionKey fields0 with
    | .error e => .error e
    | .ok fields =>
      match (getKey? fields "parameters").getD (JVal.obj []) with
      | .obj params =>
        match schemaPropsOf params with
        | .error e => .error e
        | .ok props =>
          match schemaLoop t.param_props props with
          | .error e => .error e
          | .ok newProps =>
            .ok ⟨(getKey? fields "name").getD (JVal.str ""),
                 (getKey? fields "description").getD (JVal.str ""),
                 newProps,
                 (getKey? params "required").getD (JVal.arr [])⟩
      | _ => .error .attributeError
  | _ => .error .attributeError

/-- The parameter names a `create_from_schema_json` input would iterate
(empty on any input that errors out). -/
def schemaNamesOf (function_spec : JVal) : List String :=
  match function_spec with
  | .obj fields0 =>
    match unwrapFunctionKey fields0 with
    | .error _ => []
    | .ok fields =>
      match (getKey? fields "parameters").getD (JVal.obj []) with
      | .obj params =>
        match schemaPropsOf params with
        | .error _ => []
        | .ok props => props.map Prod.fst
      | _ => []
  | _ => []

/-- The `required` value a `create_from_schema_json` input determines
(`null` on inputs that error out). -/
def schemaRequiredOf (function_spec : JVal) : JVal :=
  match function_spec with
  | .obj fields0 =>
    match unwrapFunctionKey fields0 with
    | .error _ => JVal.null
    | .ok fields =>
      match (getKey? fields "parameters").getD (JVal.obj []) with
      | .obj params => (getKey? params "required").getD (JVal.arr [])
      | _ => JVal.null
  | _ => JVal.null

/- Generic lemmas about key-insertion folds. -/

/-- The docstring of the spec's own example: one parameter whose
description text carries the substring "optional". -/
def c7ExDoc : Docstring :=
  ⟨some "Does things.", [⟨"x", some "str", some "the value, optional", false⟩]⟩

/-- The OpenAI-style input of the spec's example, with no `properties`
layer. -/
def c8Ex : JVal :=
  JVal.obj [("type", JVal.str "function"),
            ("function", JVal.obj
              [("name", JVal.str "f"),
               ("parameters", JVal.obj [("a", JVal.obj [("type", JVal.str "int")])])])]

/-- Pre-populated state for the C10 witness. -/
def c10T0 : ToolSpec :=
  ⟨JVal.str "", JVal.str "", [("old", ⟨JVal.str "string", JVal.str "d"⟩)],
   JVal.arr [JVal.str "old"]⟩

/-- A second pre-populated state with a different required list. -/
def c10U0 : ToolSpec :=
  ⟨JVal.str "", JVal.str "", [], JVal.arr [JVal.str "zzz"]⟩

def c10Ds : Docstring := ⟨none, [⟨"new", none, some "", true⟩]⟩

def c10Schema : JVal :=
  JVal.obj [("name", JVal.str "g"), ("parameters", JVal.obj [("b", JVal.obj [])])]

/-- Result of the docstring populate call on the pre-populated state. -/
def c10T1 : ToolSpec :=
  ⟨JVal.str "n", JVal.null,
   [("old", ⟨JVal.str "string", JVal.str "d"⟩), ("new", ⟨JVal.null, JVal.str ""⟩)],
   JVal.arr [JVal.str "old"]⟩

/-- Result of the schema populate call on the pre-populated state. -/
def c10T2 : ToolSpec :=
  ⟨JVal.str "g", JVal.str "",
   [("old", ⟨JVal.str "string", JVal.str "d"⟩), ("b", ⟨JVal.str "string", JVal.str ""⟩)],
   JVal.arr []⟩

/-- Result of the schema populate call on the other state. -/
def c10T3 : ToolSpec :=
  ⟨JVal.str "g", JVal.str "", [("b", ⟨JVal.str "string", JVal.str ""⟩)], JVal.arr []⟩

/-- One entry of the document's `servers` list (its `url` field). -/
structure Server where
  url : String

/-- One entry of a `parameters` list.  `extra` holds every key except
`name`, `in` and `schema` (so it includes `type` when declared): those
are exactly the keys the per-parameter comprehension merges into the
schema dict. -/
structure Param where
  name : String
  inLoc : String
  schema : Option JObj
  extra : JObj

/-- A double-splat dict merge: keys of `a` in order, values overridden
by `b`, new keys of `b` appended in order. -/
def dictMerge (a b : JObj) : JObj := b.foldl (fun m kv => setKey m kv.1 kv.2) a

/-- Schema of one header/query entry: the parameter's `schema` dict if
declared, else a dict with its `type`, merged with the remaining
parameter keys; `param["type"]` raises KeyError when a schema-less
parameter has no `type` key. -/
def paramSchemaOf (p : Param) : Except PyErr JObj :=
  match p.schema with
  | some s => .ok (dictMerge s p.extra)
  | none =>
    match getKey? p.extra "type" with
    | some t => .ok (dictMerge [("type", t)] p.extra)
    | none => .error .keyError

/-- The headers/params dict comprehension over the filtered parameter
list, building keyed entries in iteration order. -/
def buildParamMap : List Param → List (String × JObj) → Except PyErr (List (String × JObj))
  | [], acc => .ok acc
  | p :: rest, acc =>
    match paramSchemaOf p with
    | .error e => .error e
    | .ok s => buildParamMap rest (setKey acc p.name s)

/-- An operation object, after reference resolution
(`jsonref.replace_refs` is the external reference-resolution
collaborator; the document is assumed resolved, the call a structural
identity).  `parameters` is the operation's parameter list with the
absent case as `[]`. -/
structure Operation where
  operationId : Option String
  summary : Option String
  description : Option String
  parameters : List Param
  requestBody : Option JVal

/-- The `data` entry: the chained
`.get("requestBody").get("content").get(next(iter(...)))` access down
to the first media type's schema properties when a request body is
declared, else the empty dict.  A missing `content`/`schema` makes the
next `.get` an attribute access on `None` (AttributeError); an empty
content dict makes `next` on an empty iterator raise StopIteration. -/
def getData (o : Operation) : Except PyErr JVal :=
  match o.requestBody with
  | none => .ok (JVal.obj [])
  | some rbv =>
    match rbv with
    | .obj rb =>
      match getKey? rb "content" with
      | none => .error .attributeError
      | some contentVal =>
        match contentVal with
        | .obj content =>
          match content with
          | [] => .error .stopIteration
          | mt :: _ =>
            match mt.2 with
            | .obj mtObj =>
              match getKey? mtObj "schema" with
              | some (.obj so) => .ok ((getKey? so "properties").getD JVal.null)
              | some _ => .error .attributeError
              | none => .error .attributeError
            | _ => .error .attributeError
        | _ => .error .attributeError
    | _ => .error .attributeError

/-- The value under one method key of a path item: the shared
`parameters` list under the special key `"parameters"`, or an
operation object. -/
inductive PathVal where
  | params (ps : List Param)
  | op (o : Operation)

/-- Concatenating `params_common_list` with the operation's parameters
needs the carried value to be a list; when the `"parameters"` key
carried an operation object instead, the `list + dict` concatenation
raises TypeError. -/
def commonParamList : PathVal → Except PyErr (List Param)
  | .params ps => .ok ps
  | .op _ => .error .typeError

/-- An OpenAPI document as the converter reads it: `servers` and
`paths`, each path with its method dict in declaration order. -/
structure OpenApiDoc where
  servers : List Server
  paths : List (String × List (String × PathVal))

/-- ASCII `str.upper()`. -/
def strUpper (s : String) : String := ⟨s.data.map Char.toUpper⟩

/-- One emitted function spec.  The `url` entry's fixed fields (type
string, required True) and the constant `timeout` entry carry no
input-dependent data and are left implicit. -/
structure RFunction where
  name : String
  description : String
  urlDescription : String
  urlEnum : List String
  headers : List (String × JObj)
  queryParams : List (String × JObj)
  data : JVal

/-- Conversion of one operation, in source evaluation order: the
`operationId` read and normalization (TypeError on `None` inside
`re.sub`), then the function dict literal — headers, params, data. -/
def convOp (su : List String) (path method : String) (common : PathVal)
    (o : Operation) : Except PyErr (String × RFunction) :=
  match o.operationId with
  | none => .error .typeError
  | some rawId =>
    match commonParamList common with
    | .error e => .error e
    | .ok cps =>
      match buildParamMap ((cps ++ o.parameters).filter (fun p => p.inLoc == "header")) [] with
      | .error e => .error e
      | .ok headers =>
        match buildParamMap ((cps ++ o.parameters).filter (fun p => p.inLoc == "query")) [] with
        | .error e => .error e
        | .ok qparams =>
          match getData o with
          | .error e => .error e
          | .ok dataVal =>
            .ok (normalize_string rawId,
              ⟨"requests." ++ method,
               "Sends a " ++ strUpper method ++ " request to the specified URL.",
               (o.summary.getD "") ++ ". " ++ (o.description.getD ""),
               su.map (fun u => u ++ path),
               headers, qparams, dataVal⟩)

/-- The method loop of one path.  The `"parameters"` key replaces the
carried common-parameter value and is itself skipped; a list under any
other key fails at `spec.get` (AttributeError); results land in the
output dict under the normalized operationId. -/
def convMethods (su : List String) (path : String) :
    List (String × PathVal) → PathVal → List (String × RFunction) →
    Except PyErr (List (String × RFunction))
  | [], _, acc => .ok acc
  | mv :: rest, common, acc =>
    if mv.1 == "parameters" then convMethods su path rest mv.2 acc
    else
      match mv.2 with
      | .params _ => .error .attributeError
      | .op o =>
        match convOp su path mv.1 common o with
        | .error e => .error e
        | .ok kf => convMethods su path rest common (setKey acc kf.1 kf.2)

/-- The path loop; each path starts with an empty common-parameter list. -/
def convPaths (su : List String) :
    List (String × List (String × PathVal)) → List (String × RFunction) →
    Except PyErr (List (String × RFunction))
  | [], acc => .ok acc
  | pr :: rest, acc =>
    match convMethods su pr.1 pr.2 (.params []) acc with
    | .error e => .error e
    | .ok acc2 => convPaths su rest acc2

/-- `openapi_to_requests`. -/
def openapi_to_requests (doc : OpenApiDoc) : Except PyErr (List (String × RFunction)) :=
  convPaths (doc.servers.map Server.url) doc.paths []

/-- The spec's end-to-end example: one server, one path with a GET
operation, operationId "get item", one header parameter. -/
def c6Op : Operation :=
  ⟨some "get item", none, none,
   [⟨"X-Key", "header", some [("type", JVal.str "string")], []⟩], none⟩

def c6Doc : OpenApiDoc :=
  ⟨[⟨"https://api.example.com"⟩], [("/items/{id}", [("get", .op c6Op)])]⟩

/-- The function spec the example converts to. -/
def c6Fn : RFunction :=
  ⟨"requests.get", "Sends a GET request to the specified URL.", ". ",
   ["https://api.example.com/items/{id}"],
   [("X-Key", [("type", JVal.str "string")])], [], JVal.obj []⟩

/-- The C3 failing input: the first operation lacks operationId; a
well-formed operation follows on another path. -/
def c3BadOp : Operation := ⟨none, none, none, [], none⟩

def c3GoodOp : Operation := ⟨some "ok_op", none, none, [], none⟩

def c3Doc : OpenApiDoc :=
  ⟨[⟨"https://api.example.com"⟩],
   [("/a", [("get", .op c3BadOp)]), ("/b", [("get", .op c3GoodOp)])]⟩

/-- The C5 failing input: a requestBody whose content map has no
media-type entries, followed by a well-formed operation. -/
def c5BadOp : Operation :=
  ⟨some "upload", none, none, [], some (JVal.obj [("content", JVal.obj [])])⟩

def c5GoodOp : Operation := ⟨some "other_op", none, none, [], none⟩

def c5Doc : OpenApiDoc :=
  ⟨[⟨"https://api.example.com"⟩],
   [("/u", [("post", .op c5BadOp)]), ("/b", [("get", .op c5GoodOp)])]⟩

theorem getKey?_setKey_same {α : Type} (m : List (String × α)) (k : String) (v : α) :
    getKey? (setKey m k v) k = some v := by
  induction m with
  | nil => simp [setKey, getKey?]
  | cons kv rest ih =>
    by_cases h : kv.1 == k
    · simp [setKey, h, getKey?]
    · simp [setKey, h, getKey?, ih]

theorem getKey?_setKey_ne {α : Type} (m : List (String × α)) (k k' : String) (v : α)
    (h : k' ≠ k) : getKey? (setKey m k v) k' = getKey? m k' := by
  have hkk : (k == k') = false := beq_eq_false_iff_ne.mpr (Ne.symm h)
  induction m with
  | nil => simp [setKey, getKey?, hkk]
  | cons kv rest ih =>
    by_cases hk : kv.1 == k
    · have hkv : kv.1 = k := by simpa using hk
      simp [setKey, hk, getKey?, hkk, hkv]
    · simp [setKey, hk, getKey?, ih]

theorem mem_setKey {α : Type} (m : List (String × α)) (k : String) (v : α) (e : String × α)
    (he : e ∈ setKey m k v) : e = (k, v) ∨ e ∈ m := by
  induction m with
  | nil => simp [setKey] at he; simp [he]
  | cons kv rest ih =>
    by_cases hk : kv.1 == k
    · simp [setKey, hk] at he
      rcases he with he | he
      · exact Or.inl he
      · exact Or.inr (List.mem_cons_of_mem _ he)
    · simp [setKey, hk] at he
      rcases he with he | he
      · exact Or.inr (by simp [he])
      · rcases ih he with h1 | h1
        · exact Or.inl h1
        · exact Or.inr (List.mem_cons_of_mem _ h1)

theorem replaceNonWord_word (cs : List Char) (c : Char) (hc : c ∈ replaceNonWord cs) :
    isWordChar c = true := by
  rcases List.mem_map.mp hc with ⟨a, _, rfl⟩
  by_cases h : isWordChar a = true
  · simp [h]
  · simp [h]
    decide

theorem replaceNonWord_id (cs : List Char) (h : ∀ c ∈ cs, isWordChar c = true) :
    replaceNonWord cs = cs := by
  induction cs with
  | nil => rfl
  | cons a rest ih =>
    have ha : isWordChar a = true := h a (List.mem_cons_self a rest)
    simp [replaceNonWord, ha] at ih ⊢
    exact ih (fun c hc => h c (List.mem_cons_of_mem _ hc))

theorem subWordGuard_word (cs : List Char) (c : Char) (hc : c ∈ subWordGuard cs) :
    isWordChar c = true := by
  match cs with
  | [] => simp [subWordGuard] at hc
  | a :: rest =>
    simp only [subWordGuard] at hc
    by_cases hd : pyIsDigit a
    · simp [hd] at hc
      rcases hc with rfl | hc
      · decide
      · exact replaceNonWord_word _ _ hc
    · simp [hd] at hc
      exact replaceNonWord_word _ _ hc

theorem startsOkChar_not_digit (c : Char) (h : startsOkChar c = true) :
    pyIsDigit c = false := by
  unfold startsOkChar pyIsAlpha at h
  unfold pyIsDigit
  simp only [Bool.or_eq_true, decide_eq_true_eq, beq_iff_eq] at h
  simp only [decide_eq_false_iff_not]
  rintro ⟨h0, h9⟩
  rcases h with (⟨hA, hZ⟩ | ⟨ha, hz⟩) | rfl
  · exact absurd (le_trans hA h9) (by decide)
  · exact absurd (le_trans ha h9) (by decide)
  · exact absurd h9 (by decide)

theorem normalizeChars_of_normalized (cs : List Char)
    (hw : ∀ c ∈ cs, isWordChar c = true) (hs : startsOk cs = true) :
    normalizeChars cs = cs := by
  rcases cs with _ | ⟨a, rest⟩
  · simp [startsOk] at hs
  · have ha : startsOkChar a = true := by simpa [startsOk] using hs
    have hnd : pyIsDigit a = false := startsOkChar_not_digit a ha
    have hid : replaceNonWord (a :: rest) = a :: rest := replaceNonWord_id _ hw
    unfold normalizeChars
    simp [subWordGuard, hnd, hid, startsOk, ha]

/-- Claim C4 over character lists: the normalization body is idempotent. -/
theorem normalizeChars_idem (cs : List Char) :
    normalizeChars (normalizeChars cs) = normalizeChars cs := by
  by_cases hs : startsOk (subWordGuard cs) = true
  · have h1 : normalizeChars cs = subWordGuard cs := by
      unfold normalizeChars; simp [hs]
    rw [h1]
    exact normalizeChars_of_normalized _ (subWordGuard_word cs) hs
  · have hs' : startsOk (subWordGuard cs) = false := by simpa using hs
    have h1 : normalizeChars cs = '_' :: subWordGuard cs := by
      unfold normalizeChars; simp [hs']
    rw [h1]
    apply normalizeChars_of_normalized
    · intro c hc
      rcases List.mem_cons.mp hc with rfl | hc
      · decide
      · exact subWordGuard_word cs c hc
    · simp [startsOk]
      decide

/-- Claim C4: for every string s, normalize_string (normalize_string s)
= normalize_string s — normalizing an already-normalized string returns
it unchanged. -/
theorem c4_normalize_idempotent (s : String) :
    normalize_string (normalize_string s) = normalize_string s :=
  congrArg String.mk (normalizeChars_idem s.data)

theorem fmdScan_some (full m mn : String) (k : Int) :
    ∀ (ns : List PyNode) (ms l : List FoundMethod),
      fmdScan full m mn k ns ms = .ok (some l) →
      k ≤ ((ms.length + (ns.filter (isMatchDef mn)).length : Nat) : Int) := by
  intro ns
  induction ns with
  | nil => intro ms l h; simp [fmdScan] at h
  | cons n rest ih =>
    intro ms l h
    cases n with
    | funcDef fname doc args =>
      by_cases hf : (fname == mn) = true
      · simp only [fmdScan, hf, if_true] at h
        have hlen : (List.filter (isMatchDef mn) (PyNode.funcDef fname doc args :: rest)).length =
            (rest.filter (isMatchDef mn)).length + 1 := by
          simp [List.filter, isMatchDef, hf]
        rw [hlen]
        cases hpa : parse_function_arguments args with
        | error e => rw [hpa] at h; simp at h
        | ok info =>
          simp only [hpa] at h
          split at h
          next hg =>
            have hk := of_decide_eq_true hg
            simp only [List.length_append, List.length_singleton] at hk
            push_cast at hk ⊢
            omega
          next hg =>
            have := ih _ _ h
            simp only [List.length_append, List.length_singleton] at this
            push_cast at this ⊢
            omega
      · simp only [fmdScan, hf, if_false] at h
        have := ih _ _ h
        have hlen : (List.filter (isMatchDef mn) (PyNode.funcDef fname doc args :: rest)).length =
            (rest.filter (isMatchDef mn)).length := by
          simp [List.filter, isMatchDef, hf]
        rw [hlen]
        exact this
    | classDef cname body =>
      simp only [fmdScan] at h
      have := ih _ _ h
      simpa [List.filter, isMatchDef] using this
    | other =>
      simp only [fmdScan] at h
      have := ih _ _ h
      simpa [List.filter, isMatchDef] using this

theorem fmdScan_none (full m mn : String) (k : Int) :
    ∀ (ns : List PyNode) (ms : List FoundMethod),
      ((ms.length + (ns.filter (isMatchDef mn)).length : Nat) : Int) < k →
      (∀ fname doc args, PyNode.funcDef fname doc args ∈ ns → (fname == mn) = true →
        ∃ info, parse_function_arguments args = .ok info) →
      fmdScan full m mn k ns ms = .ok none := by
  intro ns
  induction ns with
  | nil => intro ms _ _; simp [fmdScan]
  | cons n rest ih =>
    intro ms hlt hp
    have hp2 : ∀ fname doc args, PyNode.funcDef fname doc args ∈ rest →
        (fname == mn) = true → ∃ info, parse_function_arguments args = .ok info :=
      fun f d a hm hf => hp f d a (List.mem_cons_of_mem _ hm) hf
    cases n with
    | funcDef fname doc args =>
      by_cases hf : (fname == mn) = true
      · have hlen : (List.filter (isMatchDef mn) (PyNode.funcDef fname doc args :: rest)).length =
            (rest.filter (isMatchDef mn)).length + 1 := by
          simp [List.filter, isMatchDef, hf]
        rw [hlen] at hlt
        obtain ⟨info, hinfo⟩ := hp fname doc args (List.mem_cons_self _ _) hf
        simp only [fmdScan, hf, if_true, hinfo]
        split
        next hg =>
          exfalso
          have hk := of_decide_eq_true hg
          simp only [List.length_append, List.length_singleton] at hk
          push_cast at hk hlt
          omega
        next hg =>
          refine ih _ ?_ hp2
          simp only [List.length_append, List.length_singleton]
          push_cast at hlt ⊢
          omega
      · have hlen : (List.filter (isMatchDef mn) (PyNode.funcDef fname doc args :: rest)).length =
            (rest.filter (isMatchDef mn)).length := by
          simp [List.filter, isMatchDef, hf]
        rw [hlen] at hlt
        simp only [fmdScan, hf, if_false]
        exact ih ms hlt hp2
    | classDef cname body =>
      simp only [fmdScan]
      refine ih _ ?_ hp2
      simpa [List.filter, isMatchDef] using hlt
    | other =>
      simp only [fmdScan]
      refine ih _ ?_ hp2
      simpa [List.filter, isMatchDef] using hlt

/-- Claim C9 as amended: `find_method_direct` returns a list only when
at least `expected_num` matching function definitions are found in the
resolved module's source.  With fewer matches it never returns a
partial list: it returns `None` when every matched definition's default
values are literal expressions (a match with a non-literal default
instead raises ValueError from `ast.literal_eval`, see the
counterexample theorem). -/
theorem c9_find_direct_threshold (moduleNodes : List PyNode)
    (full mod0 mn : String) (k : Int)
    (hs : pyRsplitDot full = some (mod0, mn)) :
    (∀ l, find_method_direct moduleNodes full k = .ok (some l) →
        k ≤ ((fmdMatchCount moduleNodes mn : Nat) : Int)) ∧
    (((fmdMatchCount moduleNodes mn : Nat) : Int) < k →
      (∀ fname doc args, PyNode.funcDef fname doc args ∈ walk moduleNodes →
        (fname == mn) = true → ∃ info, parse_function_arguments args = Except.ok info) →
      find_method_direct moduleNodes full k = .ok none) := by
  constructor
  · intro l h
    unfold find_method_direct at h
    rw [hs] at h
    have h2 : fmdScan full (if mod0 == "requests" then "requests.api" else mod0)
        mn k (walk moduleNodes) [] = .ok (some l) := h
    have := fmdScan_some full _ mn k (walk moduleNodes) [] l h2
    simpa [fmdMatchCount] using this
  · intro hlt hp
    have hnone : fmdScan full (if mod0 == "requests" then "requests.api" else mod0)
        mn k (walk moduleNodes) [] = .ok none :=
      fmdScan_none full _ mn k (walk moduleNodes) []
        (by simpa [fmdMatchCount] using hlt) hp
    unfold find_method_direct
    rw [hs]
    exact hnone

/-- Witness for C9: a module with one matching parameterless definition
and expected_num = 2 yields None. -/
theorem c9_find_direct_threshold_witness :
    find_method_direct [PyNode.funcDef "m" none emptyArgs] "mod.m" 2 = .ok none := by
  have h := c9_find_direct_threshold [PyNode.funcDef "m" none emptyArgs]
    "mod.m" "mod" "m" 2 rfl
  refine h.2 (by decide) ?_
  intro fname doc args hmem hf
  have hw : walk [PyNode.funcDef "m" none emptyArgs] =
      [PyNode.funcDef "m" none emptyArgs] := rfl
  rw [hw] at hmem
  have heq := List.mem_singleton.mp hmem
  injection heq with h1 h2 h3
  subst h3
  exact ⟨[], rfl⟩

/-- Counterexample for C9 as frozen: fewer than expected_num = 2
matching definitions exist (there is exactly one), yet the call does
not return None — building the match's `parameters` raises ValueError
from `ast.literal_eval` on the non-literal default (methods.py:111). -/
theorem c9_nonliteral_default_raises :
    ((fmdMatchCount c9BadModule "m" : Nat) : Int) < 2 ∧
    find_method_direct c9BadModule "mod.m" 2 ≠ .ok none ∧
    find_method_direct c9BadModule "mod.m" 2 = .error .valueError := by
  refine ⟨by decide, ?_, rfl⟩
  intro h
  rw [show find_method_direct c9BadModule "mod.m" 2 = .error .valueError from rfl] at h
  exact Except.noConfusion h

/-- Claim C1 (code bug): a parse failure in one file aborts the whole
scan — `_find_methods_in_file` ends in a bare `return` (None) after
logging, and the caller's `methods += None` raises TypeError, so
`find_method_in_packages` crashes instead of skipping the file and
returning the match from the next file. -/
theorem c1_parse_failure_aborts :
    find_method_in_packages [⟨"pkgA", some c1Files⟩] "m" none (-1) =
      .error .typeError := rfl

/-- Claim C2 (code bug): with max_results = 2 and matches split across
two files, `find_method_in_packages` returns 3 entries — each file scan
receives the full `expected_num` with no credit for matches already
collected, so the result exceeds the documented maximum. -/
theorem c2_max_results_overshoot :
    (find_method_in_packages c2Packages "*" none 2).map List.length = .ok 3 := rfl

theorem getKey?_foldIns_not_mem {β γ : Type} (key : β → String) (f : β → γ) :
    ∀ (l : List β) (m : List (String × γ)) (k : String),
      (∀ b ∈ l, key b ≠ k) →
      getKey? (l.foldl (fun acc b => setKey acc (key b) (f b)) m) k = getKey? m k := by
  intro l
  induction l with
  | nil => intro m k _; rfl
  | cons b rest ih =>
    intro m k h
    simp only [List.foldl_cons]
    rw [ih _ _ (fun b' hb' => h b' (List.mem_cons_of_mem _ hb'))]
    exact getKey?_setKey_ne _ _ _ _ (Ne.symm (h b (List.mem_cons_self b rest)))

theorem getKey?_foldIns_mem {β γ : Type} (key : β → String) (f : β → γ) :
    ∀ (l : List β) (m : List (String × γ)) (b : β),
      b ∈ l → (l.map key).Nodup →
      getKey? (l.foldl (fun acc b => setKey acc (key b) (f b)) m) (key b) = some (f b) := by
  intro l
  induction l with
  | nil => intro m b hb _; simp at hb
  | cons b0 rest ih =>
    intro m b hb hnd
    simp only [List.map_cons, List.nodup_cons] at hnd
    simp only [List.foldl_cons]
    rcases List.mem_cons.mp hb with rfl | hb'
    · have hnm : ∀ b' ∈ rest, key b' ≠ key b := by
        intro b' hb' heq
        exact hnd.1 (heq ▸ List.mem_map_of_mem key hb')
      rw [getKey?_foldIns_not_mem key f rest _ _ hnm]
      exact getKey?_setKey_same _ _ _
    · exact ih _ _ hb' hnd.2

/- Characterization of the docstring populate loop. -/

/-- Characterization of the docstring populate loop. -/
theorem docstringLoop_spec :
    ∀ (ps : List DocParam) (n d : JVal) (pp : List (String × ParamObj)) (xs : List JVal),
      (∀ p ∈ ps, p.is_optional = true ∨ p.description.isSome = true) →
      docstringLoop ⟨n, d, pp, JVal.arr xs⟩ ps = .ok
        ⟨n, d, ps.foldl (fun m p => setKey m p.arg_name (docParamObj p)) pp,
         JVal.arr (xs ++ (ps.filter addsRequired).map (fun p => JVal.str p.arg_name))⟩ := by
  intro ps
  induction ps with
  | nil => intro n d pp xs _; simp [docstringLoop]
  | cons p rest ih =>
    intro n d pp xs hdesc
    have hdr : ∀ q ∈ rest, q.is_optional = true ∨ q.description.isSome = true :=
      fun q hq => hdesc q (List.mem_cons_of_mem _ hq)
    by_cases hopt : p.is_optional = true
    · have haR : addsRequired p = false := by simp [addsRequired, hopt]
      simp only [docstringLoop, hopt, if_true]
      rw [ih n d (setKey pp p.arg_name (docParamObj p)) xs hdr]
      simp [List.filter_cons, haR]
    · have hopt' : p.is_optional = false := by simpa using hopt
      rcases hdesc p (List.mem_cons_self p rest) with h1 | h1
      · exact absurd h1 hopt
      · obtain ⟨desc, hdeq⟩ := Option.isSome_iff_exists.mp h1
        by_cases hcon : strContains desc "optional" = true
        · have haR : addsRequired p = false := by
            simp [addsRequired, hopt', hdeq, hcon]
          simp only [docstringLoop, hopt', Bool.false_eq_true, if_false, hdeq, hcon, if_true]
          rw [ih n d (setKey pp p.arg_name (docParamObj p)) xs hdr]
          simp [List.filter_cons, haR]
        · have hcon' : strContains desc "optional" = false := by simpa using hcon
          have haR : addsRequired p = true := by
            simp [addsRequired, hopt', hdeq, hcon']
          simp only [docstringLoop, hopt', Bool.false_eq_true, if_false, hdeq, hcon',
            Bool.false_eq_true, if_false]
          rw [ih n d (setKey pp p.arg_name (docParamObj p)) (xs ++ [JVal.str p.arg_name]) hdr]
          simp [List.filter_cons, haR]

/-- Claim C7: every parameter declared in the processed docstring is
recorded in param_props under its name with its type and description,
and joins param_required exactly when it is neither marked optional nor
carries the substring "optional" in its description text. -/
theorem c7_docstring_params (t : ToolSpec) (name : String) (ds : Docstring) (xs : List JVal)
    (hreq : t.param_required = JVal.arr xs)
    (hdesc : ∀ p ∈ ds.params, p.is_optional = true ∨ p.description.isSome = true)
    (hnd : (ds.params.map DocParam.arg_name).Nodup) :
    ∃ t', create_from_docstring t name ds = .ok t' ∧
      (∀ p ∈ ds.params, getKey? t'.param_props p.arg_name = some (docParamObj p)) ∧
      t'.param_required =
        JVal.arr (xs ++ (ds.params.filter addsRequired).map (fun p => JVal.str p.arg_name)) := by
  have h := docstringLoop_spec ds.params (JVal.str name) (jvalOfOpt ds.long_description)
    t.param_props xs hdesc
  refine ⟨⟨JVal.str name, jvalOfOpt ds.long_description,
      ds.params.foldl (fun m p => setKey m p.arg_name (docParamObj p)) t.param_props,
      JVal.arr (xs ++ (ds.params.filter addsRequired).map (fun p => JVal.str p.arg_name))⟩,
    ?_, ?_, rfl⟩
  · unfold create_from_docstring
    rw [hreq]
    exact h
  · intro p hp
    exact getKey?_foldIns_mem DocParam.arg_name docParamObj ds.params t.param_props p hp hnd

/-- Witness for C7: the optional-in-description parameter lands in the
properties but not in the required list. -/
theorem c7_docstring_params_witness :
    ∃ t', create_from_docstring toolSpecInit "f" c7ExDoc = .ok t' ∧
      getKey? t'.param_props "x" = some ⟨JVal.str "str", JVal.str "the value, optional"⟩ ∧
      t'.param_required = JVal.arr [] := by
  obtain ⟨t', h1, h2, h3⟩ := c7_docstring_params toolSpecInit "f" c7ExDoc [] rfl
    (by
      intro p hp
      simp only [c7ExDoc, List.mem_singleton] at hp
      subst hp
      simp)
    (by simp [c7ExDoc])
  refine ⟨t', h1, ?_, ?_⟩
  · have := h2 ⟨"x", some "str", some "the value, optional", false⟩
      (by simp [c7ExDoc])
    simpa [docParamObj, jvalOfOpt] using this
  · rw [h3]
    rfl

/- Characterization of the schema populate loop. -/

theorem schemaLoop_ok :
    ∀ (props : List (String × JVal)) (acc : List (String × ParamObj)),
      (∀ kv ∈ props, ∃ f, kv.2 = JVal.obj f) →
      schemaLoop acc props = .ok
        (props.foldl (fun m kv => setKey m kv.1 (paramObjD kv.2)) acc) := by
  intro props
  induction props with
  | nil => intro acc _; rfl
  | cons kv rest ih =>
    intro acc hall
    obtain ⟨f, hf⟩ := hall kv (List.mem_cons_self kv rest)
    have hok : paramObjOf kv.2 = .ok (paramObjD kv.2) := by rw [hf]; rfl
    simp only [schemaLoop, hok, List.foldl_cons]
    exact ih _ (fun kv' h' => hall kv' (List.mem_cons_of_mem _ h'))

theorem schemaLoop_frame :
    ∀ (props : List (String × JVal)) (acc out : List (String × ParamObj)) (k : String),
      schemaLoop acc props = .ok out →
      (∀ kv ∈ props, kv.1 ≠ k) →
      getKey? out k = getKey? acc k := by
  intro props
  induction props with
  | nil =>
    intro acc out k h _
    simp only [schemaLoop, Except.ok.injEq] at h
    rw [← h]
  | cons kv rest ih =>
    intro acc out k h hne
    simp only [schemaLoop] at h
    cases hpo : paramObjOf kv.2 with
    | error e => rw [hpo] at h; simp at h
    | ok po =>
      rw [hpo] at h
      rw [ih _ _ _ h (fun kv' h' => hne kv' (List.mem_cons_of_mem _ h'))]
      exact getKey?_setKey_ne _ _ _ _ (Ne.symm (hne kv (List.mem_cons_self kv rest)))

/-- Claim C8: with no `properties` layer, `create_from_schema_json`
treats the parameters map itself as the properties map, defaults a
missing type to "string" and a missing description to "", and copies
the `required` list verbatim (empty when absent). -/
theorem c8_schema_fallback (t : ToolSpec) (fsj : JVal) (fields0 fields params : JObj)
    (hobj : fsj = JVal.obj fields0)
    (hunwrap : unwrapFunctionKey fields0 = .ok fields)
    (hparams : (getKey? fields "parameters").getD (JVal.obj []) = JVal.obj params)
    (hnoprops : getKey? params "properties" = none)
    (hvals : ∀ kv ∈ params, ∃ f, kv.2 = JVal.obj f)
    (hnd : (params.map Prod.fst).Nodup) :
    ∃ t', create_from_schema_json t fsj = .ok t' ∧
      (∀ kv ∈ params, getKey? t'.param_props kv.1 = some (paramObjD kv.2)) ∧
      t'.param_required = (getKey? params "required").getD (JVal.arr []) := by
  subst hobj
  have hprops : schemaPropsOf params = .ok params := by
    unfold schemaPropsOf
    rw [hnoprops]
    rfl
  have hloop := schemaLoop_ok params t.param_props hvals
  refine ⟨⟨(getKey? fields "name").getD (JVal.str ""),
      (getKey? fields "description").getD (JVal.str ""),
      params.foldl (fun m kv => setKey m kv.1 (paramObjD kv.2)) t.param_props,
      (getKey? params "required").getD (JVal.arr [])⟩,
    ?_, ?_, rfl⟩
  · simp only [create_from_schema_json, hunwrap, hparams, hprops, hloop]
  · intro kv hkv
    exact getKey?_foldIns_mem Prod.fst (fun kv => paramObjD kv.2) params t.param_props kv hkv hnd

/-- Witness for C8: the example yields the parameter under "a" with
type "int", empty description, and an empty required list. -/
theorem c8_schema_fallback_witness :
    ∃ t', create_from_schema_json toolSpecInit c8Ex = .ok t' ∧
      getKey? t'.param_props "a" = some ⟨JVal.str "int", JVal.str ""⟩ ∧
      t'.param_required = JVal.arr [] := by
  obtain ⟨t', h1, h2, h3⟩ := c8_schema_fallback toolSpecInit c8Ex
    [("type", JVal.str "function"),
     ("function", JVal.obj
       [("name", JVal.str "f"),
        ("parameters", JVal.obj [("a", JVal.obj [("type", JVal.str "int")])])])]
    [("name", JVal.str "f"),
     ("parameters", JVal.obj [("a", JVal.obj [("type", JVal.str "int")])])]
    [("a", JVal.obj [("type", JVal.str "int")])]
    rfl rfl rfl rfl
    (by
      intro kv hkv
      rcases List.mem_singleton.mp hkv with rfl
      exact ⟨_, rfl⟩)
    (by simp)
  refine ⟨t', h1, ?_, ?_⟩
  · have := h2 ("a", JVal.obj [("type", JVal.str "int")]) (List.mem_singleton.mpr rfl)
    simpa [paramObjD, getKey?] using this
  · rw [h3]
    rfl

/- Frame lemmas driven by a successful populate call. -/

theorem docstringLoop_props_frame :
    ∀ (ps : List DocParam) (t t' : ToolSpec) (k : String) (v : ParamObj),
      docstringLoop t ps = .ok t' →
      getKey? t.param_props k = some v →
      (∀ p ∈ ps, p.arg_name ≠ k) →
      getKey? t'.param_props k = some v := by
  intro ps
  induction ps with
  | nil =>
    intro t t' k v h hk _
    simp only [docstringLoop, Except.ok.injEq] at h
    rw [← h]
    exact hk
  | cons p rest ih =>
    intro t t' k v h hk hne
    obtain ⟨n, d, pp, pr⟩ := t
    have hne' : ∀ q ∈ rest, q.arg_name ≠ k := fun q hq => hne q (List.mem_cons_of_mem _ hq)
    have hkk : getKey? (setKey pp p.arg_name (docParamObj p)) k = some v := by
      rw [getKey?_setKey_ne pp p.arg_name k (docParamObj p)
        (Ne.symm (hne p (List.mem_cons_self p rest)))]
      exact hk
    simp only [docstringLoop] at h
    split at h
    · exact ih _ _ _ _ h hkk hne'
    · split at h
      · simp at h
      · split at h
        · exact ih _ _ _ _ h hkk hne'
        · split at h
          · exact ih _ _ _ _ h hkk hne'
          · simp at h

theorem docstringLoop_required_ext :
    ∀ (ps : List DocParam) (t t' : ToolSpec) (xs : List JVal),
      docstringLoop t ps = .ok t' →
      t.param_required = JVal.arr xs →
      ∃ ys, t'.param_required = JVal.arr (xs ++ ys) := by
  intro ps
  induction ps with
  | nil =>
    intro t t' xs h hreq
    simp only [docstringLoop, Except.ok.injEq] at h
    exact ⟨[], by rw [← h, hreq]; simp⟩
  | cons p rest ih =>
    intro t t' xs h hreq
    obtain ⟨n, d, pp, pr⟩ := t
    change pr = JVal.arr xs at hreq
    subst hreq
    simp only [docstringLoop] at h
    split at h
    · exact ih _ _ xs h rfl
    · split at h
      · simp at h
      · split at h
        · exact ih _ _ xs h rfl
        · obtain ⟨ys, hy⟩ := ih _ _ (xs ++ [JVal.str p.arg_name]) h rfl
          exact ⟨JVal.str p.arg_name :: ys, by rw [hy]; simp⟩

theorem schema_required_of_ok (t : ToolSpec) (fsj : JVal) (t' : ToolSpec)
    (h : create_from_schema_json t fsj = .ok t') :
    t'.param_required = schemaRequiredOf fsj := by
  unfold create_from_schema_json at h
  split at h
  · rename_i fields0
    split at h
    · simp at h
    · rename_i fields hu
      split at h
      · rename_i params hp
        split at h
        · simp at h
        · rename_i props hpr
          split at h
          · simp at h
          · rename_i newProps hl
            simp only [Except.ok.injEq] at h
            rw [← h]
            simp [schemaRequiredOf, hu, hp]
      · simp at h
  · simp at h

/-- Claim C10: neither populate path resets previously stored parameter
properties — any entry not named by the new input survives unchanged;
`create_from_docstring` appends to the existing required list, while
`create_from_schema_json` replaces it with a value determined by the
input alone. -/
theorem c10_populate_frame :
    (∀ (t : ToolSpec) (name : String) (ds : Docstring) (t' : ToolSpec)
        (k : String) (v : ParamObj) (xs : List JVal),
        create_from_docstring t name ds = .ok t' →
        getKey? t.param_props k = some v →
        (∀ p ∈ ds.params, p.arg_name ≠ k) →
        t.param_required = JVal.arr xs →
        getKey? t'.param_props k = some v ∧
          ∃ ys, t'.param_required = JVal.arr (xs ++ ys)) ∧
    (∀ (t : ToolSpec) (fsj : JVal) (t' : ToolSpec) (k : String) (v : ParamObj),
        create_from_schema_json t fsj = .ok t' →
        getKey? t.param_props k = some v →
        (∀ nm ∈ schemaNamesOf fsj, nm ≠ k) →
        getKey? t'.param_props k = some v) ∧
    (∀ (t u : ToolSpec) (fsj : JVal) (t' u' : ToolSpec),
        create_from_schema_json t fsj = .ok t' →
        create_from_schema_json u fsj = .ok u' →
        t'.param_required = u'.param_required) := by
  refine ⟨?_, ?_, ?_⟩
  · intro t name ds t' k v xs h hk hne hreq
    unfold create_from_docstring at h
    constructor
    · exact docstringLoop_props_frame ds.params _ _ k v h hk hne
    · exact docstringLoop_required_ext ds.params _ _ xs h hreq
  · intro t fsj t' k v h hk hne
    unfold create_from_schema_json at h
    split at h
    · rename_i fields0
      split at h
      · simp at h
      · rename_i fields hu
        split at h
        · rename_i params hp
          split at h
          · simp at h
          · rename_i props hpr
            split at h
            · simp at h
            · rename_i newProps hl
              have hnames : schemaNamesOf (JVal.obj fields0) = props.map Prod.fst := by
                simp [schemaNamesOf, hu, hp, hpr]
              rw [hnames] at hne
              have hfr : getKey? newProps k = getKey? t.param_props k := by
                apply schemaLoop_frame props t.param_props newProps k hl
                intro kv hkv heq
                exact hne kv.1 (heq ▸ List.mem_map_of_mem Prod.fst hkv) heq
              simp only [Except.ok.injEq] at h
              rw [← h]
              rw [show (⟨(getKey? fields "name").getD (JVal.str ""),
                    (getKey? fields "description").getD (JVal.str ""), newProps,
                    (getKey? params "required").getD (JVal.arr [])⟩ : ToolSpec).param_props
                  = newProps from rfl]
              rw [hfr]
              exact hk
        · simp at h
    · simp at h
  · intro t u fsj t' u' h h'
    rw [schema_required_of_ok t fsj t' h, schema_required_of_ok u fsj u' h']

/-- Witness for C10 at concrete inputs. -/
theorem c10_populate_frame_witness :
    (getKey? c10T1.param_props "old" = some ⟨JVal.str "string", JVal.str "d"⟩ ∧
      ∃ ys, c10T1.param_required = JVal.arr ([JVal.str "old"] ++ ys)) ∧
    getKey? c10T2.param_props "old" = some ⟨JVal.str "string", JVal.str "d"⟩ ∧
    c10T2.param_required = c10T3.param_required := by
  obtain ⟨h1, h2, h3⟩ := c10_populate_frame
  refine ⟨h1 c10T0 "n" c10Ds c10T1 "old" _ [JVal.str "old"] rfl rfl ?_ rfl,
          h2 c10T0 c10Schema c10T2 "old" _ rfl rfl ?_,
          h3 c10T0 c10U0 c10Schema c10T2 c10T3 rfl rfl⟩
  · intro p hp
    simp only [c10Ds, List.mem_singleton] at hp
    subst hp
    simp
  · intro nm hnm
    have heq : schemaNamesOf c10Schema = ["b"] := rfl
    rw [heq] at hnm
    rcases List.mem_singleton.mp hnm with rfl
    simp

theorem convOp_urlEnum (su : List String) (path method : String) (common : PathVal)
    (o : Operation) (r : String × RFunction) (h : convOp su path method common o = .ok r) :
    r.2.urlEnum = su.map (fun u => u ++ path) := by
  unfold convOp at h
  split at h
  · simp at h
  · split at h
    · simp at h
    · split at h
      · simp at h
      · split at h
        · simp at h
        · split at h
          · simp at h
          · simp only [Except.ok.injEq] at h
            rw [← h]

/-- Provenance of the entries a method loop adds: each one is the
conversion of an operation declared in that loop's method list, under
that loop's path (the common-parameter value is whichever one the loop
carried when it reached the operation). -/
theorem convMethods_src (su : List String) :
    ∀ (ms : List (String × PathVal)) (path : String) (common : PathVal)
      (acc out : List (String × RFunction)),
      convMethods su path ms common acc = .ok out →
      ∀ e ∈ out, e ∈ acc ∨
        ∃ method o common2, (method, PathVal.op o) ∈ ms ∧
          convOp su path method common2 o = .ok e := by
  intro ms
  induction ms with
  | nil =>
    intro path common acc out h e he
    simp only [convMethods, Except.ok.injEq] at h
    subst h
    exact Or.inl he
  | cons mv rest ih =>
    intro path common acc out h e he
    obtain ⟨m1, m2⟩ := mv
    simp only [convMethods] at h
    split at h
    · rcases ih path m2 acc out h e he with h1 | ⟨method, o, c2, hmem, hconv⟩
      · exact Or.inl h1
      · exact Or.inr ⟨method, o, c2, List.mem_cons_of_mem _ hmem, hconv⟩
    · split at h
      · simp at h
      · rename_i o
        split at h
        · simp at h
        · rename_i kf hconv
          rcases ih path common _ out h e he with h1 | ⟨method, o2, c2, hmem, hconv2⟩
          · rcases mem_setKey acc kf.1 kf.2 e h1 with rfl | h2
            · exact Or.inr ⟨m1, o, common, List.mem_cons_self _ _, hconv⟩
            · exact Or.inl h2
          · exact Or.inr ⟨method, o2, c2, List.mem_cons_of_mem _ hmem, hconv2⟩

/-- Provenance of the whole output: each entry is the conversion of an
operation declared under one of the document's paths, using that path. -/
theorem convPaths_src (su : List String) :
    ∀ (prs : List (String × List (String × PathVal))) (acc out : List (String × RFunction)),
      convPaths su prs acc = .ok out →
      ∀ e ∈ out, e ∈ acc ∨
        ∃ q ms method o common2, (q, ms) ∈ prs ∧ (method, PathVal.op o) ∈ ms ∧
          convOp su q method common2 o = .ok e := by
  intro prs
  induction prs with
  | nil =>
    intro acc out h e he
    simp only [convPaths, Except.ok.injEq] at h
    subst h
    exact Or.inl he
  | cons pr rest ih =>
    intro acc out h e he
    obtain ⟨q0, ms0⟩ := pr
    simp only [convPaths] at h
    split at h
    · simp at h
    · rename_i acc2 hcm
      rcases ih acc2 out h e he with h1 | ⟨q, ms, method, o, c2, hq, hmem, hconv⟩
      · rcases convMethods_src su ms0 q0 (.params []) acc acc2 hcm e h1 with
          h2 | ⟨method, o, c2, hmem, hconv⟩
        · exact Or.inl h2
        · exact Or.inr ⟨q0, ms0, method, o, c2, List.mem_cons_self _ _, hmem, hconv⟩
      · exact Or.inr ⟨q, ms, method, o, c2, List.mem_cons_of_mem _ hq, hmem, hconv⟩

/-- Claim C6: every entry of the output map is the conversion of an
operation the document declares under some path q, converted with that
same q, and its url enum is the cross product of the declared server
base URLs with q — the operation's own path template — in server
declaration order. -/
theorem c6_url_enum (doc : OpenApiDoc) (out : List (String × RFunction))
    (h : openapi_to_requests doc = .ok out) :
    ∀ e ∈ out, ∃ q ms method o common,
      (q, ms) ∈ doc.paths ∧ (method, PathVal.op o) ∈ ms ∧
      convOp (doc.servers.map Server.url) q method common o = .ok e ∧
      e.2.urlEnum = doc.servers.map (fun s => s.url ++ q) := by
  intro e he
  rcases convPaths_src (doc.servers.map Server.url) doc.paths [] out h e he with
    h1 | ⟨q, ms, method, o, c2, hq, hmem, hconv⟩
  · simp at h1
  · refine ⟨q, ms, method, o, c2, hq, hmem, hconv, ?_⟩
    have henum := convOp_urlEnum (doc.servers.map Server.url) q method c2 o e hconv
    rw [henum, List.map_map]
    rfl

/-- Witness for C6 at the spec's example document: the emitted
get_item spec is the conversion of the GET operation declared under the
/items/{id} path, and its enum pairs the one server with exactly that
path. -/
theorem c6_url_enum_witness :
    ∃ q ms method o common,
      (q, ms) ∈ c6Doc.paths ∧ (method, PathVal.op o) ∈ ms ∧
      convOp (c6Doc.servers.map Server.url) q method common o = .ok ("get_item", c6Fn) ∧
      c6Fn.urlEnum = c6Doc.servers.map (fun s => s.url ++ q) :=
  c6_url_enum c6Doc [("get_item", c6Fn)] rfl ("get_item", c6Fn)
    (List.mem_singleton.mpr rfl)

/-- Claim C3 (code bug): an operation without operationId crashes the
whole conversion — `normalize_string(None)` raises TypeError inside
`re.sub` — instead of producing a reported per-operation error and
converting the rest of the document. -/
theorem c3_missing_operation_id_crash :
    openapi_to_requests c3Doc = .error .typeError := rfl

/-- Claim C5 (code bug): an empty request-body content map makes `next`
on an empty iterator raise StopIteration, aborting the whole
conversion, instead of the named "empty request body content" error
scoped to that operation. -/
theorem c5_empty_content_stopiteration :
    openapi_to_requests c5Doc = .error .stopIteration := rfl

end AutoFunc
